import Mathlib

/-!
Verification of the toy-sysctl-conf core (src/src/lib.rs): a line-oriented
configuration tokenizer, key-value extraction into a `Config`, a `Schema`
of declared value types, and a validator reconciling the two.

Strings are modelled as `List Char`.  Rust's `str::trim`, `str::lines`,
`str::split_once` and `i64::from_str` are modelled by `trimL`, `linesOf`,
`splitOnce` and `parseI64` below, following their documented semantics.
Rust's `HashMap` is modelled as an association list with unique keys;
`insertA` is `HashMap::insert` (replace on duplicate), `lookupA` is
`HashMap::get`, and iteration order is the list order (Rust leaves the
iteration order unspecified, so every statement proved about `validate`
is order-independent: membership, uniqueness, emptiness).
-/

namespace SysctlConf

abbrev Str := List Char

instance exceptDecEq {ε α : Type} [DecidableEq ε] [DecidableEq α] :
    DecidableEq (Except ε α) := fun x y =>
  match x, y with
  | .ok a, .ok b =>
    if h : a = b then .isTrue (by rw [h]) else .isFalse (by simp [h])
  | .error a, .error b =>
    if h : a = b then .isTrue (by rw [h]) else .isFalse (by simp [h])
  | .ok _, .error _ => .isFalse (by simp)
  | .error _, .ok _ => .isFalse (by simp)

/-- Unicode White_Space property, the character class used by Rust's
`char::is_whitespace` (and hence `str::trim`). -/
def isWs (c : Char) : Bool :=
  let n := c.toNat
  (decide (9 ≤ n) && decide (n ≤ 13)) || decide (n = 32) || decide (n = 133) ||
  decide (n = 160) || decide (n = 5760) ||
  (decide (8192 ≤ n) && decide (n ≤ 8202)) || decide (n = 8232) ||
  decide (n = 8233) || decide (n = 8239) || decide (n = 8287) || decide (n = 12288)

/-- Rust `str::trim`: drop leading and trailing whitespace. -/
def trimL (s : Str) : Str :=
  ((s.dropWhile isWs).reverse.dropWhile isWs).reverse

/-- Split a string at every newline character; the result is always
nonempty (an empty input gives one empty piece). -/
def rawLines : Str → List Str
  | [] => [[]]
  | c :: t =>
    if c = '\n' then [] :: rawLines t
    else
      match rawLines t with
      | [] => [[c]]
      | h :: r => (c :: h) :: r

/-- Remove one trailing carriage return, if present. -/
def stripCr (l : Str) : Str :=
  match l.reverse with
  | '\r' :: r => r.reverse
  | _ => l

/-- Post-process the newline-split pieces the way Rust `str::lines` does:
every piece that was terminated by a newline loses a trailing carriage
return, and a final empty piece (input empty or ending in a newline) is
dropped. -/
def fixLines : List Str → List Str
  | [] => []
  | [l] => if l = [] then [] else [l]
  | l :: t => stripCr l :: fixLines t

/-- Rust `str::lines`: lines are separated by a line feed or by a carriage
return plus line feed; a final line terminator is optional. -/
def linesOf (s : Str) : List Str :=
  fixLines (rawLines s)

/-- Rust `str::split_once`: split at the first occurrence of `sep`,
returning the text before and after it, or `none` when `sep` is absent. -/
def splitOnce (sep : Char) : Str → Option (Str × Str)
  | [] => none
  | c :: t =>
    if c = sep then some ([], t)
    else
      match splitOnce sep t with
      | none => none
      | some (a, b) => some (c :: a, b)

/-- The `ParseError` type from src/src/lib.rs. -/
inductive ParseError where
  | InvalidLine (line_number : Nat) (content : Str)
  | InvalidType (line_number : Nat) (type_name : Str)
  deriving DecidableEq, Repr

/-- The `Token` type from src/src/lib.rs. -/
inductive Token where
  | Comment (s : Str)
  | BlankLine
  | KeyValue (key value : Str) (ignore_error : Bool)
  deriving DecidableEq, Repr

/-- The per-line classifier inside `Tokens::parse` (`i` is the 0-based
line index).  Rust's `strip_prefix('-')` on the (nonempty) trimmed line is
the test `head? = some '-'` together with `tail`. -/
def lineToken (i : Nat) (line : Str) : Except ParseError Token :=
  let trimmed := trimL line
  if trimmed = [] then .ok .BlankLine
  else if trimmed.head? = some '#' ∨ trimmed.head? = some ';' then
    .ok (.Comment trimmed)
  else if trimmed.head? = some '-' then
    match splitOnce '=' trimmed.tail with
    | some (k, v) => .ok (.KeyValue (trimL k) (trimL v) true)
    | none => .error (.InvalidLine (i + 1) line)
  else
    match splitOnce '=' trimmed with
    | some (k, v) => .ok (.KeyValue (trimL k) (trimL v) false)
    | none => .error (.InvalidLine (i + 1) line)

/-- Fold of `lineToken` over a list of lines starting at index `i`,
short-circuiting on the first error (the `collect::<Result<...>>` in
`Tokens::parse`). -/
def parseFrom (i : Nat) : List Str → Except ParseError (List Token)
  | [] => .ok []
  | ln :: rest =>
    match lineToken i ln with
    | .error e => .error e
    | .ok t =>
      match parseFrom (i + 1) rest with
      | .error e => .error e
      | .ok ts => .ok (t :: ts)

/-- Rust `Tokens::parse` from src/src/lib.rs. -/
def Tokens.parse (content : Str) : Except ParseError (List Token) :=
  parseFrom 0 (linesOf content)

/-- Association-list model of Rust's `HashMap` with string keys. -/
abbrev AList (V : Type) := List (Str × V)

/-- Rust `HashMap::get`. -/
def lookupA {V : Type} : AList V → Str → Option V
  | [], _ => none
  | (k', v') :: t, k => if k' = k then some v' else lookupA t k

/-- Rust `HashMap::insert`: replace the binding when the key is present,
otherwise add it. -/
def insertA {V : Type} : AList V → Str → V → AList V
  | [], k, v => [(k, v)]
  | (k', v') :: t, k, v =>
    if k' = k then (k, v) :: t else (k', v') :: insertA t k v

/-- Insert a list of pairs left to right (`collect` / repeated `insert`). -/
def insertAll {V : Type} (m : AList V) (ps : List (Str × V)) : AList V :=
  ps.foldl (fun acc p => insertA acc p.1 p.2) m

/-- The `(key, value)` pairs of the `KeyValue` tokens, in order (the
`filter_map` in `Config::parse`); the `ignore_error` flag is discarded. -/
def pairsOf (toks : List Token) : List (Str × Str) :=
  toks.filterMap fun t =>
    match t with
    | .KeyValue k v _ => some (k, v)
    | _ => none

/-- The `Config` type from src/src/lib.rs. -/
structure Config where
  entries : AList Str
  deriving DecidableEq, Repr

/-- Rust `Config::parse` from src/src/lib.rs. -/
def Config.parse (content : Str) : Except ParseError Config :=
  match Tokens.parse content with
  | .error e => .error e
  | .ok toks => .ok ⟨insertAll [] (pairsOf toks)⟩

/-- Rust `Config::get` from src/src/lib.rs. -/
def Config.get (c : Config) (key : Str) : Option Str :=
  lookupA c.entries key

/-- The `ValueType` type from src/src/lib.rs. -/
inductive ValueType where
  | Str
  | Bool
  | Integer
  deriving DecidableEq, Repr

/-- Value of a list of decimal digits. -/
def digitsVal (l : Str) : Nat :=
  l.foldl (fun a c => 10 * a + (c.toNat - 48)) 0

/-- Rust `i64::from_str` (the `value.parse::<i64>()` call in
`ValueType::is_valid`), by its documented semantics: an optional leading
`+` or `-` sign followed by one or more ASCII digits, whose signed value
must lie in the 64-bit range `[-9223372036854775808, 9223372036854775807]`. -/
def parseI64Core (neg : Bool) (ds : Str) : Option Int :=
  if ds = [] then none
  else if ds.all Char.isDigit then
    let v : Int := if neg then -(digitsVal ds : Int) else (digitsVal ds : Int)
    if -9223372036854775808 ≤ v ∧ v ≤ 9223372036854775807 then some v else none
  else none

/-- Rust `i64::from_str`, sign handling. -/
def parseI64 (s : Str) : Option Int :=
  if s.head? = some '-' then parseI64Core true s.tail
  else if s.head? = some '+' then parseI64Core false s.tail
  else parseI64Core false s

/-- Rust `ValueType::is_valid` from src/src/lib.rs. -/
def ValueType.is_valid (vt : ValueType) (value : List Char) :=
  match vt with
  | .Str => true
  | .Bool => value == "true".toList || value == "false".toList
  | .Integer => (parseI64 value).isSome

/-- Rust `fmt::Display for ValueType` from src/src/lib.rs. -/
def ValueType.display : ValueType → List Char
  | .Str => "string".toList
  | .Bool => "bool".toList
  | .Integer => "integer".toList

/-- The `match value.as_str()` in `Schema::parse`: recognize a type
keyword. -/
def typeOfName (v : Str) : Option ValueType :=
  if v = "string".toList then some .Str
  else if v = "bool".toList then some .Bool
  else if v = "integer".toList then some .Integer
  else none

/-- The `Schema` type from src/src/lib.rs. -/
structure Schema where
  entries : AList ValueType
  deriving DecidableEq, Repr

/-- The enumerated loop in `Schema::parse`: `i` is the token index,
`entries` the map built so far. -/
def schemaFold (i : Nat) (entries : AList ValueType) :
    List Token → Except ParseError (AList ValueType)
  | [] => .ok entries
  | t :: rest =>
    match t with
    | .KeyValue k v _ =>
      match typeOfName v with
      | some vt => schemaFold (i + 1) (insertA entries k vt) rest
      | none => .error (.InvalidType (i + 1) v)
    | _ => schemaFold (i + 1) entries rest

/-- Rust `Schema::parse` from src/src/lib.rs. -/
def Schema.parse (content : Str) : Except ParseError Schema :=
  match Tokens.parse content with
  | .error e => .error e
  | .ok toks =>
    match schemaFold 0 [] toks with
    | .error e => .error e
    | .ok entries => .ok ⟨entries⟩

/-- The `ValidationError` type from src/src/lib.rs. -/
inductive ValidationError where
  | TypeMismatch (key expected got : Str)
  | UnknownKey (key : Str)
  | MissingKey (key : Str)
  deriving DecidableEq, Repr

/-- First loop of `validate`: for every schema entry, a type check of the
config's value, or a missing-key report. -/
def schemaErrs (c : Config) (s : Schema) : List ValidationError :=
  s.entries.filterMap fun p =>
    match Config.get c p.1 with
    | some v =>
      if p.2.is_valid v then none
      else some (.TypeMismatch p.1 p.2.display v)
    | none => some (.MissingKey p.1)

/-- Second loop of `validate`: every config key absent from the schema is
unknown. -/
def configErrs (c : Config) (s : Schema) : List ValidationError :=
  c.entries.filterMap fun p =>
    match lookupA s.entries p.1 with
    | some _ => none
    | none => some (.UnknownKey p.1)

/-- Rust `validate` from src/src/lib.rs. -/
def validate (c : Config) (s : Schema) : Except (List ValidationError) Unit :=
  let errors := schemaErrs c s ++ configErrs c s
  if errors = [] then .ok () else .error errors

/-- Modelled from the spec: the acceptance relation the spec states for
`Integer` values ("optional leading `-`, no fractional part, no leading
`+`, must fit in 64 bits"): an optional leading minus sign followed by
one or more decimal digits whose (signed) value fits in 64 bits. -/
def specIntegerAccepts (s : Str) : Bool :=
  if s.head? = some '-' then
    !s.tail.isEmpty && s.tail.all Char.isDigit &&
      decide (digitsVal s.tail ≤ 9223372036854775808)
  else
    !s.isEmpty && s.all Char.isDigit && decide (digitsVal s ≤ 9223372036854775807)

/-- The acceptance relation the code actually implements for `Integer`
values: like `specIntegerAccepts`, but a leading `+` sign is also
allowed. -/
def amendedIntegerAccepts (s : Str) : Bool :=
  if s.head? = some '-' then
    !s.tail.isEmpty && s.tail.all Char.isDigit &&
      decide (digitsVal s.tail ≤ 9223372036854775808)
  else if s.head? = some '+' then
    !s.tail.isEmpty && s.tail.all Char.isDigit &&
      decide (digitsVal s.tail ≤ 9223372036854775807)
  else
    !s.isEmpty && s.all Char.isDigit && decide (digitsVal s ≤ 9223372036854775807)

/-! ### Helper definitions used by the statements -/

/-- A line is malformed when, after trimming, it is neither blank nor a
comment and (after stripping a leading dash) contains no equals sign.
This mirrors the error branches of `lineToken`. -/
def isBadLine (ln : Str) : Bool :=
  let trimmed := trimL ln
  if trimmed = [] then false
  else if trimmed.head? = some '#' ∨ trimmed.head? = some ';' then false
  else if trimmed.head? = some '-' then (splitOnce '=' trimmed.tail).isNone
  else (splitOnce '=' trimmed).isNone

/-- The value bound to a key by the rightmost pair carrying that key. -/
def lastLook {V : Type} : List (Str × V) → Str → Option V
  | [], _ => none
  | p :: t, k =>
    match lastLook t k with
    | some v => some v
    | none => if p.1 = k then some p.2 else none

/-- The `(key, type)` pairs a successful schema fold inserts, in order. -/
def typedPairs (toks : List Token) : List (Str × ValueType) :=
  toks.filterMap fun t =>
    match t with
    | .KeyValue k v _ =>
      match typeOfName v with
      | some vt => some (k, vt)
      | none => none
    | _ => none

/-- The keys of an association list are pairwise distinct (the `HashMap`
representation invariant). -/
abbrev keysNodup {V : Type} (l : AList V) : Prop :=
  (l.map Prod.fst).Nodup

/-- The key a validation error reports. -/
def errKey : ValidationError → Str
  | .TypeMismatch k _ _ => k
  | .UnknownKey k => k
  | .MissingKey k => k

/-! ### Association-list lemmas -/

theorem lookupA_insertA {V : Type} (m : AList V) (a k : Str) (b : V) :
    lookupA (insertA m a b) k = if a = k then some b else lookupA m k := by
  induction m with
  | nil => simp [insertA, lookupA]
  | cons p t ih =>
    obtain ⟨k', v'⟩ := p
    by_cases h1 : k' = a
    · subst h1
      by_cases h2 : k' = k <;> simp [insertA, lookupA, h2]
    · by_cases h2 : k' = k
      · subst h2
        have : ¬ a = k' := fun hh => h1 hh.symm
        simp [insertA, lookupA, h1, this]
      · simp [insertA, lookupA, h1, h2, ih]

theorem lookupA_insertAll {V : Type} (ps : List (Str × V)) (m : AList V) (k : Str) :
    lookupA (insertAll m ps) k =
      match lastLook ps k with
      | some v => some v
      | none => lookupA m k := by
  induction ps generalizing m with
  | nil => simp [insertAll, lastLook]
  | cons p t ih =>
    have step : insertAll m (p :: t) = insertAll (insertA m p.1 p.2) t := rfl
    rw [step, ih]
    cases hl : lastLook t k with
    | some v => simp [lastLook, hl]
    | none =>
      rw [lookupA_insertA]
      by_cases hp : p.1 = k <;> simp [lastLook, hl, hp]

theorem lastLook_eq_none {V : Type} (ps : List (Str × V)) (k : Str)
    (h : ∀ p ∈ ps, p.1 ≠ k) : lastLook ps k = none := by
  induction ps with
  | nil => rfl
  | cons p t ih =>
    have hp : p.1 ≠ k := h p (by simp)
    have ht : lastLook t k = none := ih fun q hq => h q (by simp [hq])
    simp [lastLook, ht, hp]

theorem lastLook_append {V : Type} (ps qs : List (Str × V)) (k : Str) :
    lastLook (ps ++ qs) k =
      match lastLook qs k with
      | some v => some v
      | none => lastLook ps k := by
  induction ps with
  | nil => cases hq : lastLook qs k <;> simp [lastLook, hq]
  | cons p t ih =>
    cases hq : lastLook qs k with
    | some v => simp [lastLook, List.cons_append, ih, hq]
    | none => simp [lastLook, List.cons_append, ih, hq]

theorem lastLook_last {V : Type} (ps qs : List (Str × V)) (k : Str) (v : V)
    (h : ∀ p ∈ qs, p.1 ≠ k) :
    lastLook (ps ++ (k, v) :: qs) k = some v := by
  rw [lastLook_append]
  have hq : lastLook ((k, v) :: qs) k = some v := by
    simp [lastLook, lastLook_eq_none qs k h]
  simp [hq]

theorem lookupA_isSome_iff {V : Type} (l : AList V) (k : Str) :
    (lookupA l k).isSome ↔ k ∈ l.map Prod.fst := by
  induction l with
  | nil => simp [lookupA]
  | cons p t ih =>
    obtain ⟨k', v'⟩ := p
    by_cases h : k' = k
    · subst h
      simp only [lookupA, List.map_cons, List.mem_cons, Option.isSome_some,
        eq_self_iff_true, if_true, true_iff]
      exact Or.inl trivial
    · have h2 : ¬ k = k' := fun hh => h hh.symm
      simp only [lookupA, List.map_cons, List.mem_cons, if_neg h, ih]
      constructor
      · intro hm
        exact Or.inr hm
      · intro hm
        rcases hm with hm | hm
        · exact absurd hm h2
        · exact hm

theorem lookupA_mem {V : Type} (l : AList V) (k : Str) (v : V)
    (h : lookupA l k = some v) : (k, v) ∈ l := by
  induction l with
  | nil => simp [lookupA] at h
  | cons p t ih =>
    obtain ⟨k', v'⟩ := p
    by_cases hk : k' = k
    · subst hk
      simp [lookupA] at h
      simp [h]
    · simp [lookupA, hk] at h
      simp [ih h]

theorem mem_lookupA {V : Type} (l : AList V) (k : Str) (v : V)
    (hnd : keysNodup l) (h : (k, v) ∈ l) : lookupA l k = some v := by
  induction l with
  | nil => simp at h
  | cons p t ih =>
    obtain ⟨k', v'⟩ := p
    unfold keysNodup at hnd
    simp only [List.map_cons, List.nodup_cons] at hnd
    rcases List.mem_cons.mp h with h1 | h1
    · simp only [Prod.mk.injEq] at h1
      obtain ⟨hk, hv⟩ := h1
      subst hk
      subst hv
      simp [lookupA]
    · have hk : k' ≠ k := by
        intro hh
        subst hh
        exact hnd.1 (List.mem_map.mpr ⟨(k', v), h1, rfl⟩)
      simp [lookupA, hk, ih hnd.2 h1]

/-! ### Tokenizer lemmas -/

theorem splitOnce_first (sep : Char) (a b : Str) (h : sep ∉ a) :
    splitOnce sep (a ++ sep :: b) = some (a, b) := by
  induction a with
  | nil => simp [splitOnce]
  | cons c t ih =>
    have hc : ¬ c = sep := fun hh => h (hh ▸ List.mem_cons_self c t)
    have ht : sep ∉ t := fun hm => h (List.mem_cons_of_mem _ hm)
    simp [splitOnce, hc, ih ht]

theorem splitOnce_isSome_iff (sep : Char) (l : Str) :
    (splitOnce sep l).isSome ↔ sep ∈ l := by
  induction l with
  | nil => simp [splitOnce]
  | cons c t ih =>
    by_cases h : c = sep
    · subst h
      simp [splitOnce]
    · have h2 : ¬ sep = c := fun hh => h hh.symm
      simp only [splitOnce, if_neg h, List.mem_cons]
      cases hs : splitOnce sep t with
      | none =>
        rw [hs] at ih
        simp only [Option.isSome_none] at ih ⊢
        simp [h2, ← ih]
      | some p =>
        rw [hs] at ih
        simp only [Option.isSome_some] at ih
        obtain ⟨a, b⟩ := p
        simp [h2, ← ih]

theorem lineToken_of_bad (i : Nat) (ln : Str) (h : isBadLine ln = true) :
    lineToken i ln = .error (.InvalidLine (i + 1) ln) := by
  by_cases h1 : trimL ln = []
  · simp [isBadLine, h1] at h
  by_cases h2 : (trimL ln).head? = some '#' ∨ (trimL ln).head? = some ';'
  · simp only [isBadLine, if_neg h1, if_pos h2] at h
    exact absurd h (by simp)
  by_cases h3 : (trimL ln).head? = some '-'
  · simp only [isBadLine, if_neg h1, if_neg h2, if_pos h3] at h
    have hs : splitOnce '=' (trimL ln).tail = none := Option.isNone_iff_eq_none.mp h
    simp [lineToken, h1, h2, h3, hs]
  · simp only [isBadLine, if_neg h1, if_neg h2, if_neg h3] at h
    have hs : splitOnce '=' (trimL ln) = none := Option.isNone_iff_eq_none.mp h
    simp [lineToken, h1, h2, h3, hs]

theorem lineToken_of_good (i : Nat) (ln : Str) (h : isBadLine ln = false) :
    ∃ t, lineToken i ln = .ok t := by
  by_cases h1 : trimL ln = []
  · exact ⟨.BlankLine, by simp [lineToken, h1]⟩
  by_cases h2 : (trimL ln).head? = some '#' ∨ (trimL ln).head? = some ';'
  · exact ⟨.Comment (trimL ln), by simp [lineToken, h1, h2]⟩
  by_cases h3 : (trimL ln).head? = some '-'
  · simp only [isBadLine, if_neg h1, if_neg h2, if_pos h3] at h
    cases hs : splitOnce '=' (trimL ln).tail with
    | none => simp [hs] at h
    | some p =>
      obtain ⟨a, b⟩ := p
      exact ⟨.KeyValue (trimL a) (trimL b) true, by simp [lineToken, h1, h2, h3, hs]⟩
  · simp only [isBadLine, if_neg h1, if_neg h2, if_neg h3] at h
    cases hs : splitOnce '=' (trimL ln) with
    | none => simp [hs] at h
    | some p =>
      obtain ⟨a, b⟩ := p
      exact ⟨.KeyValue (trimL a) (trimL b) false, by simp [lineToken, h1, h2, h3, hs]⟩

theorem parseFrom_all_good (ls : List Str)
    (h : ∀ ln ∈ ls, isBadLine ln = false) (i : Nat) :
    ∃ ts, parseFrom i ls = .ok ts := by
  induction ls generalizing i with
  | nil => exact ⟨[], rfl⟩
  | cons ln rest ih =>
    obtain ⟨t, ht⟩ := lineToken_of_good i ln (h ln (by simp))
    obtain ⟨ts, hts⟩ := ih (fun l hl => h l (by simp [hl])) (i + 1)
    exact ⟨t :: ts, by simp [parseFrom, ht, hts]⟩

theorem parseFrom_first_bad (ls : List Str) (j : Nat) (ln : Str)
    (hj : ls.get? j = some ln) (hbad : isBadLine ln = true)
    (hfirst : ∀ i' ln', i' < j → ls.get? i' = some ln' → isBadLine ln' = false)
    (i : Nat) :
    parseFrom i ls = .error (.InvalidLine (i + j + 1) ln) := by
  induction ls generalizing i j with
  | nil => simp at hj
  | cons l0 rest ih =>
    cases j with
    | zero =>
      simp only [List.get?] at hj
      injection hj with hj
      subst hj
      simp [parseFrom, lineToken_of_bad i l0 hbad]
    | succ j' =>
      have h0 : isBadLine l0 = false := hfirst 0 l0 (Nat.succ_pos _) rfl
      obtain ⟨t, ht⟩ := lineToken_of_good i l0 h0
      have hj' : rest.get? j' = some ln := hj
      have hrec := ih j' hj'
        (fun i' ln' hlt hget => hfirst (i' + 1) ln' (Nat.succ_lt_succ hlt) hget)
        (i + 1)
      have harith : i + 1 + j' + 1 = i + (j' + 1) + 1 := by omega
      rw [harith] at hrec
      simp [parseFrom, ht, hrec]

/-! ### Schema-fold lemmas -/

theorem schemaFold_ok_entries (toks : List Token) (i : Nat) (m e : AList ValueType)
    (h : schemaFold i m toks = .ok e) : e = insertAll m (typedPairs toks) := by
  induction toks generalizing i m with
  | nil =>
    simp only [schemaFold] at h
    injection h with h
    simp [typedPairs, insertAll, h.symm]
  | cons t rest ih =>
    cases t with
    | Comment s =>
      simp only [schemaFold] at h
      simpa [typedPairs, List.filterMap_cons] using ih (i + 1) m h
    | BlankLine =>
      simp only [schemaFold] at h
      simpa [typedPairs, List.filterMap_cons] using ih (i + 1) m h
    | KeyValue k v ig =>
      simp only [schemaFold] at h
      cases ht : typeOfName v with
      | some vt =>
        rw [ht] at h
        have := ih (i + 1) (insertA m k vt) h
        simpa [typedPairs, List.filterMap_cons, ht, insertAll] using this
      | none =>
        rw [ht] at h
        exact absurd h (by simp)

theorem schemaFold_ok_good (toks : List Token) (i : Nat) (m e : AList ValueType)
    (h : schemaFold i m toks = .ok e) :
    ∀ k v ig, Token.KeyValue k v ig ∈ toks → (typeOfName v).isSome := by
  induction toks generalizing i m with
  | nil => simp
  | cons t rest ih =>
    intro k v ig hm
    cases t with
    | Comment s =>
      simp only [schemaFold] at h
      rcases List.mem_cons.mp hm with h1 | h1
      · exact absurd h1 (by simp)
      · exact ih (i + 1) m h k v ig h1
    | BlankLine =>
      simp only [schemaFold] at h
      rcases List.mem_cons.mp hm with h1 | h1
      · exact absurd h1 (by simp)
      · exact ih (i + 1) m h k v ig h1
    | KeyValue k' v' ig' =>
      simp only [schemaFold] at h
      cases ht : typeOfName v' with
      | some vt =>
        rw [ht] at h
        rcases List.mem_cons.mp hm with h1 | h1
        · injection h1 with hk hv hig
          rw [hv, ht]
          rfl
        · exact ih (i + 1) (insertA m k' vt) h k v ig h1
      | none =>
        rw [ht] at h
        exact absurd h (by simp)

theorem schemaFold_error (toks : List Token) (i : Nat) (m : AList ValueType)
    (e : ParseError) (h : schemaFold i m toks = .error e) :
    ∃ j k v ig, toks.get? j = some (.KeyValue k v ig) ∧ typeOfName v = none ∧
      e = .InvalidType (i + j + 1) v := by
  induction toks generalizing i m with
  | nil => simp [schemaFold] at h
  | cons t rest ih =>
    cases t with
    | Comment s =>
      simp only [schemaFold] at h
      obtain ⟨j, k, v, ig, h1, h2, h3⟩ := ih (i + 1) m h
      exact ⟨j + 1, k, v, ig, h1, h2, by rw [h3]; congr 1; omega⟩
    | BlankLine =>
      simp only [schemaFold] at h
      obtain ⟨j, k, v, ig, h1, h2, h3⟩ := ih (i + 1) m h
      exact ⟨j + 1, k, v, ig, h1, h2, by rw [h3]; congr 1; omega⟩
    | KeyValue k' v' ig' =>
      simp only [schemaFold] at h
      cases ht : typeOfName v' with
      | some vt =>
        rw [ht] at h
        obtain ⟨j, k, v, ig, h1, h2, h3⟩ := ih (i + 1) (insertA m k' vt) h
        exact ⟨j + 1, k, v, ig, h1, h2, by rw [h3]; congr 1; omega⟩
      | none =>
        rw [ht] at h
        injection h with h
        exact ⟨0, k', v', ig', rfl, ht, by rw [← h]⟩

theorem schemaFold_error_of_bad (toks : List Token) (i : Nat) (m : AList ValueType)
    (hbad : ∃ k v ig, Token.KeyValue k v ig ∈ toks ∧ typeOfName v = none) :
    ∃ e, schemaFold i m toks = .error e := by
  cases hr : schemaFold i m toks with
  | ok e =>
    obtain ⟨k, v, ig, hm, hn⟩ := hbad
    have := schemaFold_ok_good toks i m e hr k v ig hm
    rw [hn] at this
    exact absurd this (by simp)
  | error e => exact ⟨e, rfl⟩

/-! ### Validator lemmas -/

theorem mem_configErrs_shape (c : Config) (s : Schema) (e : ValidationError)
    (h : e ∈ configErrs c s) : ∃ k, e = .UnknownKey k := by
  obtain ⟨p, _, hp⟩ := List.mem_filterMap.mp h
  cases hl : lookupA s.entries p.1 with
  | some vt => rw [hl] at hp; simp at hp
  | none =>
    rw [hl] at hp
    injection hp with hp
    exact ⟨p.1, hp.symm⟩

theorem mem_schemaErrs_shape (c : Config) (s : Schema) (e : ValidationError)
    (h : e ∈ schemaErrs c s) :
    (∃ k x g, e = .TypeMismatch k x g) ∨ ∃ k, e = .MissingKey k := by
  obtain ⟨p, _, hp⟩ := List.mem_filterMap.mp h
  cases hl : Config.get c p.1 with
  | some v =>
    rw [hl] at hp
    by_cases hv : p.2.is_valid v = true
    · simp [hv] at hp
    · simp only [hv, if_false, Bool.false_eq_true, if_neg, Option.some.injEq] at hp
      exact Or.inl ⟨p.1, p.2.display, v, hp.symm⟩
  | none =>
    rw [hl] at hp
    injection hp with hp
    exact Or.inr ⟨p.1, hp.symm⟩

theorem filterMap_keys_sublist {V : Type} (l : List (Str × V))
    (f : Str × V → Option ValidationError)
    (hf : ∀ p e, f p = some e → errKey e = p.1) :
    ((l.filterMap f).map errKey).Sublist (l.map Prod.fst) := by
  induction l with
  | nil => simp
  | cons p t ih =>
    cases hp : f p with
    | none =>
      simp only [List.filterMap_cons, hp, List.map_cons]
      exact ih.cons p.1
    | some e =>
      simp only [List.filterMap_cons, hp, List.map_cons]
      rw [hf p e hp]
      exact ih.cons₂ p.1

theorem schemaErrs_mem_TM (c : Config) (s : Schema) (hs : keysNodup s.entries)
    (k exp got : Str) :
    ValidationError.TypeMismatch k exp got ∈ schemaErrs c s ↔
      ∃ vt, lookupA s.entries k = some vt ∧ exp = vt.display ∧
        Config.get c k = some got ∧ vt.is_valid got = false := by
  constructor
  · intro h
    obtain ⟨p, hpmem, hp⟩ := List.mem_filterMap.mp h
    cases hl : Config.get c p.1 with
    | some v =>
      rw [hl] at hp
      by_cases hv : p.2.is_valid v = true
      · simp [hv] at hp
      · simp [hv] at hp
        obtain ⟨e1, e2, e3⟩ := hp
        have hpair : (p.1, p.2) ∈ s.entries := by simpa using hpmem
        refine ⟨p.2, ?_, e2.symm, ?_, ?_⟩
        · rw [← e1]
          exact mem_lookupA _ _ _ hs hpair
        · rw [← e1, ← e3]
          exact hl
        · rw [← e3]
          simpa using hv
    | none =>
      rw [hl] at hp
      simp at hp
  · rintro ⟨vt, hvt, hexp, hgot, hvalid⟩
    refine List.mem_filterMap.mpr ⟨(k, vt), lookupA_mem _ _ _ hvt, ?_⟩
    simp [hgot, hvalid, hexp]

theorem schemaErrs_mem_MK (c : Config) (s : Schema) (k : Str) :
    ValidationError.MissingKey k ∈ schemaErrs c s ↔
      (lookupA s.entries k).isSome ∧ Config.get c k = none := by
  constructor
  · intro h
    obtain ⟨p, hpmem, hp⟩ := List.mem_filterMap.mp h
    cases hl : Config.get c p.1 with
    | some v =>
      rw [hl] at hp
      by_cases hv : p.2.is_valid v = true
      · simp [hv] at hp
      · simp [hv] at hp
    | none =>
      rw [hl] at hp
      simp only [Option.some.injEq] at hp
      injection hp with e1
      constructor
      · rw [← e1]
        exact (lookupA_isSome_iff s.entries p.1).mpr (List.mem_map.mpr ⟨p, hpmem, rfl⟩)
      · rw [← e1]
        exact hl
  · rintro ⟨hsome, hnone⟩
    obtain ⟨vt, hvt⟩ := Option.isSome_iff_exists.mp hsome
    refine List.mem_filterMap.mpr ⟨(k, vt), lookupA_mem _ _ _ hvt, ?_⟩
    simp [hnone]

theorem configErrs_mem_UK (c : Config) (s : Schema) (k : Str) :
    ValidationError.UnknownKey k ∈ configErrs c s ↔
      (lookupA c.entries k).isSome ∧ lookupA s.entries k = none := by
  constructor
  · intro h
    obtain ⟨p, hpmem, hp⟩ := List.mem_filterMap.mp h
    cases hl : lookupA s.entries p.1 with
    | some vt =>
      rw [hl] at hp
      simp at hp
    | none =>
      rw [hl] at hp
      simp only [Option.some.injEq] at hp
      injection hp with e1
      constructor
      · rw [← e1]
        exact (lookupA_isSome_iff c.entries p.1).mpr (List.mem_map.mpr ⟨p, hpmem, rfl⟩)
      · rw [← e1]
        exact hl
  · rintro ⟨hsome, hnone⟩
    obtain ⟨v, hv⟩ := Option.isSome_iff_exists.mp hsome
    refine List.mem_filterMap.mpr ⟨(k, v), lookupA_mem _ _ _ hv, ?_⟩
    simp [hnone]

theorem schemaErrs_eq_nil (c : Config) (s : Schema) :
    schemaErrs c s = [] ↔
      ∀ p ∈ s.entries, ∃ v, Config.get c p.1 = some v ∧ p.2.is_valid v = true := by
  rw [schemaErrs, List.filterMap_eq_nil_iff]
  constructor
  · intro h p hp
    have := h p hp
    cases hl : Config.get c p.1 with
    | some v =>
      rw [hl] at this
      by_cases hv : p.2.is_valid v = true
      · exact ⟨v, rfl, hv⟩
      · simp [hv] at this
    | none =>
      rw [hl] at this
      simp at this
  · intro h p hp
    obtain ⟨v, hv, hvalid⟩ := h p hp
    simp [hv, hvalid]

theorem configErrs_eq_nil (c : Config) (s : Schema) :
    configErrs c s = [] ↔ ∀ p ∈ c.entries, (lookupA s.entries p.1).isSome := by
  rw [configErrs, List.filterMap_eq_nil_iff]
  constructor
  · intro h p hp
    have := h p hp
    cases hl : lookupA s.entries p.1 with
    | some vt => simp [hl]
    | none =>
      rw [hl] at this
      simp at this
  · intro h p hp
    obtain ⟨vt, hvt⟩ := Option.isSome_iff_exists.mp (h p hp)
    simp [hvt]

theorem schemaErrs_nodup (c : Config) (s : Schema) (hs : keysNodup s.entries) :
    (schemaErrs c s).Nodup := by
  have hf : ∀ (p : Str × ValueType) e,
      (match Config.get c p.1 with
        | some v => if p.2.is_valid v = true then none
            else some (ValidationError.TypeMismatch p.1 p.2.display v)
        | none => some (ValidationError.MissingKey p.1)) = some e →
      errKey e = p.1 := by
    intro p e hp
    cases hl : Config.get c p.1 with
    | some v =>
      rw [hl] at hp
      by_cases hv : p.2.is_valid v = true
      · simp [hv] at hp
      · simp [hv] at hp
        subst hp
        rfl
    | none =>
      rw [hl] at hp
      simp only [Option.some.injEq] at hp
      subst hp
      rfl
  have hsub := filterMap_keys_sublist s.entries _ hf
  exact ((hsub.nodup hs).of_map errKey)

theorem configErrs_nodup (c : Config) (s : Schema) (hc : keysNodup c.entries) :
    (configErrs c s).Nodup := by
  have hf : ∀ (p : Str × Str) e,
      (match lookupA s.entries p.1 with
        | some _ => none
        | none => some (ValidationError.UnknownKey p.1)) = some e →
      errKey e = p.1 := by
    intro p e hp
    cases hl : lookupA s.entries p.1 with
    | some vt =>
      rw [hl] at hp
      simp at hp
    | none =>
      rw [hl] at hp
      simp only [Option.some.injEq] at hp
      rw [← hp]
      rfl
  have hsub := filterMap_keys_sublist c.entries _ hf
  exact ((hsub.nodup hc).of_map errKey)

theorem validate_def (c : Config) (s : Schema) :
    validate c s =
      if schemaErrs c s ++ configErrs c s = [] then .ok ()
      else .error (schemaErrs c s ++ configErrs c s) := rfl

theorem validate_ok_iff (c : Config) (s : Schema) :
    validate c s = .ok () ↔ schemaErrs c s = [] ∧ configErrs c s = [] := by
  rw [validate_def]
  by_cases h : schemaErrs c s ++ configErrs c s = []
  · obtain ⟨h1, h2⟩ := List.append_eq_nil.mp h
    simp [h, h1, h2]
  · rw [if_neg h]
    constructor
    · intro hcontra
      exact absurd hcontra (by simp)
    · rintro ⟨h1, h2⟩
      exact absurd (by simp [h1, h2] : schemaErrs c s ++ configErrs c s = []) h

theorem validate_error_eq (c : Config) (s : Schema) (E : List ValidationError)
    (h : validate c s = .error E) : E = schemaErrs c s ++ configErrs c s := by
  rw [validate_def] at h
  by_cases hnil : schemaErrs c s ++ configErrs c s = []
  · rw [if_pos hnil] at h
    exact absurd h (by simp)
  · rw [if_neg hnil] at h
    injection h with h
    exact h.symm

/-! ### Integer-parsing lemmas -/

theorem parseI64Core_isSome_iff (neg : Bool) (ds : Str) :
    (parseI64Core neg ds).isSome = true ↔
      (ds ≠ [] ∧ ds.all Char.isDigit = true ∧
        (if neg = true then digitsVal ds ≤ 9223372036854775808
         else digitsVal ds ≤ 9223372036854775807)) := by
  unfold parseI64Core
  by_cases h1 : ds = []
  · simp [h1]
  rw [if_neg h1]
  by_cases h2 : ds.all Char.isDigit
  · rw [if_pos h2]
    cases neg with
    | false =>
      by_cases h3 : digitsVal ds ≤ 9223372036854775807
      · have hcond : -9223372036854775808 ≤ ((digitsVal ds : Nat) : Int) ∧
            ((digitsVal ds : Nat) : Int) ≤ 9223372036854775807 := by omega
        simp [hcond, h1, h2, h3]
      · have hcond : ¬(-9223372036854775808 ≤ ((digitsVal ds : Nat) : Int) ∧
            ((digitsVal ds : Nat) : Int) ≤ 9223372036854775807) := by omega
        simp [hcond, h1, h2, h3]
    | true =>
      by_cases h3 : digitsVal ds ≤ 9223372036854775808
      · have hcond : -9223372036854775808 ≤ -((digitsVal ds : Nat) : Int) ∧
            -((digitsVal ds : Nat) : Int) ≤ 9223372036854775807 := by omega
        simp [hcond, h1, h2, h3]
      · have hcond : ¬(-9223372036854775808 ≤ -((digitsVal ds : Nat) : Int) ∧
            -((digitsVal ds : Nat) : Int) ≤ 9223372036854775807) := by omega
        simp [hcond, h1, h2, h3]
  · rw [if_neg h2]
    simp [h2]

theorem parseI64_isSome_iff (s : Str) :
    (parseI64 s).isSome = true ↔ amendedIntegerAccepts s = true := by
  unfold parseI64 amendedIntegerAccepts
  by_cases h1 : s.head? = some '-'
  · rw [if_pos h1, if_pos h1, parseI64Core_isSome_iff]
    simp [and_assoc]
  · rw [if_neg h1, if_neg h1]
    by_cases h2 : s.head? = some '+'
    · rw [if_pos h2, if_pos h2, parseI64Core_isSome_iff]
      simp [and_assoc]
    · rw [if_neg h2, if_neg h2, parseI64Core_isSome_iff]
      simp [and_assoc]

/-! ### Last-occurrence helpers shared by the duplicate-key results -/

theorem pairsOf_no_key (t2 : List Token) (k : Str)
    (hlast : ∀ v' ig', Token.KeyValue k v' ig' ∉ t2) :
    ∀ p ∈ pairsOf t2, p.1 ≠ k := by
  intro p hp hk
  obtain ⟨t, htmem, hteq⟩ := List.mem_filterMap.mp hp
  cases t with
  | KeyValue k2 v2 ig2 =>
    simp only [Option.some.injEq] at hteq
    rw [← hteq] at hk
    simp only at hk
    rw [hk] at htmem
    exact hlast v2 ig2 htmem
  | Comment s => simp at hteq
  | BlankLine => simp at hteq

theorem typedPairs_no_key (t2 : List Token) (k : Str)
    (hlast : ∀ v' ig', Token.KeyValue k v' ig' ∉ t2) :
    ∀ p ∈ typedPairs t2, p.1 ≠ k := by
  intro p hp hk
  obtain ⟨t, htmem, hteq⟩ := List.mem_filterMap.mp hp
  cases t with
  | KeyValue k2 v2 ig2 =>
    cases ht : typeOfName v2 with
    | some vt =>
      simp only [ht, Option.some.injEq] at hteq
      rw [← hteq] at hk
      simp only at hk
      rw [hk] at htmem
      exact hlast v2 ig2 htmem
    | none =>
      simp [ht] at hteq
  | Comment s => simp at hteq
  | BlankLine => simp at hteq

theorem pairsOf_append (l1 l2 : List Token) :
    pairsOf (l1 ++ l2) = pairsOf l1 ++ pairsOf l2 :=
  List.filterMap_append ..

theorem typedPairs_append (l1 l2 : List Token) :
    typedPairs (l1 ++ l2) = typedPairs l1 ++ typedPairs l2 :=
  List.filterMap_append ..

theorem configParse_eq (content : Str) (toks : List Token)
    (h : Tokens.parse content = .ok toks) :
    Config.parse content = .ok ⟨insertAll [] (pairsOf toks)⟩ := by
  unfold Config.parse
  rw [h]

theorem schemaParse_eq (content : Str) (toks : List Token)
    (h : Tokens.parse content = .ok toks) :
    Schema.parse content =
      match schemaFold 0 [] toks with
      | .error e => .error e
      | .ok entries => .ok ⟨entries⟩ := by
  unfold Schema.parse
  rw [h]

theorem config_parse_lookup_last (content : Str) (toks t1 t2 : List Token)
    (k v : Str) (ig : Bool) (cfg : Config)
    (h : Tokens.parse content = .ok toks)
    (hsplit : toks = t1 ++ Token.KeyValue k v ig :: t2)
    (hlast : ∀ v' ig', Token.KeyValue k v' ig' ∉ t2)
    (hcfg : Config.parse content = .ok cfg) :
    lookupA cfg.entries k = some v := by
  rw [configParse_eq content toks h] at hcfg
  injection hcfg with hcfg
  rw [← hcfg]
  rw [hsplit, lookupA_insertAll]
  have : pairsOf (t1 ++ Token.KeyValue k v ig :: t2) =
      pairsOf t1 ++ (k, v) :: pairsOf t2 := by
    rw [show Token.KeyValue k v ig :: t2 = [Token.KeyValue k v ig] ++ t2 from rfl,
      pairsOf_append, pairsOf_append]
    rfl
  rw [this, lastLook_last _ _ _ _ (pairsOf_no_key t2 k hlast)]

theorem schema_parse_lookup_last (content : Str) (toks t1 t2 : List Token)
    (k v : Str) (ig : Bool) (vt : ValueType) (sch : Schema)
    (h : Tokens.parse content = .ok toks)
    (hsplit : toks = t1 ++ Token.KeyValue k v ig :: t2)
    (hlast : ∀ v' ig', Token.KeyValue k v' ig' ∉ t2)
    (htype : typeOfName v = some vt)
    (hsch : Schema.parse content = .ok sch) :
    lookupA sch.entries k = some vt := by
  rw [schemaParse_eq content toks h] at hsch
  cases hf : schemaFold 0 [] toks with
  | error e =>
    rw [hf] at hsch
    exact absurd hsch (by simp)
  | ok e =>
    rw [hf] at hsch
    injection hsch with hsch
    rw [← hsch]
    have he := schemaFold_ok_entries toks 0 [] e hf
    simp only at he ⊢
    rw [he, hsplit, lookupA_insertAll]
    have : typedPairs (t1 ++ Token.KeyValue k v ig :: t2) =
        typedPairs t1 ++ (k, vt) :: typedPairs t2 := by
      rw [show Token.KeyValue k v ig :: t2 = [Token.KeyValue k v ig] ++ t2 from rfl,
        typedPairs_append, typedPairs_append]
      simp [typedPairs, htype]
    rw [this, lastLook_last _ _ _ _ (typedPairs_no_key t2 k hlast)]

/-! ### Claims -/

/-- C1 (amended): `ValueType.is_valid` accepts every string for `Str`;
for `Bool` it accepts exactly the literals "true" and "false"
(case-sensitive); for `Integer` it accepts exactly the strings made of an
optional leading '+' or '-' sign followed by one or more ASCII digits
whose signed value fits in 64 bits.  (The original claim said a leading
'+' is rejected; the code accepts it, see the counterexample.) -/
theorem c1_is_valid_characterization (s : Str) :
    ValueType.is_valid .Str s = true ∧
    (ValueType.is_valid .Bool s = true ↔ s = "true".toList ∨ s = "false".toList) ∧
    (ValueType.is_valid .Integer s = true ↔ amendedIntegerAccepts s = true) := by
  refine ⟨rfl, ?_, ?_⟩
  · show (s == "true".toList || s == "false".toList) = true ↔ _
    simp
  · show (parseI64 s).isSome = true ↔ _
    exact parseI64_isSome_iff s

/-- C1 counterexample: the code's `Integer` check accepts the string
"+5", while the spec's stated acceptance relation (optional leading '-',
no leading '+') rejects it. -/
theorem c1_counterexample :
    ValueType.is_valid .Integer ("+5").toList = true ∧
    specIntegerAccepts ("+5").toList = false := by decide

/-- C10: empty keys and empty values are accepted: "=v" and "-=v" parse
to a `KeyValue` with empty key, "k=" parses with empty value, so
`Config.parse "=x"` succeeds with `get "" = some "x"` and
`Config.parse "k="` succeeds with `get "k" = some ""`. -/
theorem c10_empty_key_value :
    lineToken 0 ("=v").toList = .ok (.KeyValue [] ("v").toList false) ∧
    lineToken 0 ("-=v").toList = .ok (.KeyValue [] ("v").toList true) ∧
    Except.map (fun c => c.get []) (Config.parse ("=x").toList) =
      .ok (some ("x").toList) ∧
    Except.map (fun c => c.get ("k").toList) (Config.parse ("k=").toList) =
      .ok (some ([] : Str)) := by
  decide

/-- C7: a key-value line is split at the first '=' only: with `a`
containing no '=', a trimmed line `a ++ '=' :: b` (hard) or
`'-' :: a ++ '=' :: b` (soft) tokenizes to the key `trimL a` and the
value `trimL b`, so any further '=' characters stay inside the value. -/
theorem c7_split_first_eq (i : Nat) (ln a b : Str) (ha : '=' ∉ a) :
    (trimL ln = a ++ '=' :: b →
      (a ++ '=' :: b).head? ≠ some '#' → (a ++ '=' :: b).head? ≠ some ';' →
      (a ++ '=' :: b).head? ≠ some '-' →
      lineToken i ln = .ok (.KeyValue (trimL a) (trimL b) false)) ∧
    (trimL ln = '-' :: (a ++ '=' :: b) →
      lineToken i ln = .ok (.KeyValue (trimL a) (trimL b) true)) := by
  constructor
  · intro htr hhash hsemi hdash
    have hne : ¬(a ++ '=' :: b) = [] := by simp
    unfold lineToken
    rw [htr]
    rw [if_neg hne, if_neg (by push_neg; exact ⟨hhash, hsemi⟩), if_neg hdash,
      splitOnce_first '=' a b ha]
  · intro htr
    have hne : ¬('-' :: (a ++ '=' :: b)) = [] := by simp
    have hhead : ('-' :: (a ++ '=' :: b)).head? = some '-' := rfl
    unfold lineToken
    rw [htr]
    rw [if_neg hne, if_neg (by simp), if_pos hhead]
    show (match splitOnce '=' (a ++ '=' :: b) with
      | some (k, v) => Except.ok (ε := ParseError) (Token.KeyValue (trimL k) (trimL v) true)
      | none => Except.error (ParseError.InvalidLine (i + 1) ln)) =
      Except.ok (Token.KeyValue (trimL a) (trimL b) true)
    rw [splitOnce_first '=' a b ha]

/-- C7 witness: the line "a = b=c" yields key "a" and value "b=c". -/
theorem c7_witness :
    '=' ∉ ("a ").toList ∧
    lineToken 0 ("a = b=c").toList =
      .ok (.KeyValue ("a").toList ("b=c").toList false) :=
  ⟨by decide,
    (c7_split_first_eq 0 (("a = b=c").toList) (("a ").toList) ((" b=c").toList)
        (by decide)).1
      (by decide) (by decide) (by decide) (by decide)⟩

/-- C6: if every non-blank, non-comment line of the input contains an
'=', then `Config.parse` succeeds (the `InvalidLine` branch is
unreachable). -/
theorem c6_valid_config_parses (content : Str)
    (h : ∀ ln ∈ linesOf content, trimL ln ≠ [] →
      (trimL ln).head? ≠ some '#' → (trimL ln).head? ≠ some ';' →
      '=' ∈ trimL ln) :
    ∃ cfg, Config.parse content = .ok cfg := by
  have hgood : ∀ ln ∈ linesOf content, isBadLine ln = false := by
    intro ln hln
    unfold isBadLine
    by_cases h1 : trimL ln = []
    · simp [h1]
    rw [if_neg h1]
    by_cases h2 : (trimL ln).head? = some '#' ∨ (trimL ln).head? = some ';'
    · rw [if_pos h2]
    rw [if_neg h2]
    have hmem : '=' ∈ trimL ln :=
      h ln hln h1 (fun hh => h2 (Or.inl hh)) (fun hh => h2 (Or.inr hh))
    by_cases h3 : (trimL ln).head? = some '-'
    · rw [if_pos h3]
      rcases hl : trimL ln with _ | ⟨c, t⟩
      · exact absurd hl h1
      have hc : c = '-' := by
        rw [hl] at h3
        exact Option.some.inj h3
      rw [hl] at hmem
      have hmemt : '=' ∈ t := by
        rcases List.mem_cons.mp hmem with hh | hh
        · rw [hc] at hh
          exact absurd hh (by decide)
        · exact hh
      have := (splitOnce_isSome_iff '=' t).mpr hmemt
      cases hsp : splitOnce '=' t with
      | none => rw [hsp] at this; simp at this
      | some p => simp [hl, hsp]
    · rw [if_neg h3]
      have := (splitOnce_isSome_iff '=' (trimL ln)).mpr hmem
      cases hsp : splitOnce '=' (trimL ln) with
      | none => rw [hsp] at this; simp at this
      | some p => simp [hsp]
  obtain ⟨ts, hts⟩ := parseFrom_all_good (linesOf content) hgood 0
  exact ⟨⟨insertAll [] (pairsOf ts)⟩, by simp [Config.parse, Tokens.parse, hts]⟩

/-- C6 witness: a mixed config with a soft line, a comment and a blank
line parses successfully. -/
theorem c6_witness :
    (∀ ln ∈ linesOf ("a=1\n# c\n\n-b = 2").toList, trimL ln ≠ [] →
      (trimL ln).head? ≠ some '#' → (trimL ln).head? ≠ some ';' →
      '=' ∈ trimL ln) ∧
    ∃ cfg, Config.parse ("a=1\n# c\n\n-b = 2").toList = .ok cfg :=
  ⟨by decide, c6_valid_config_parses _ (by decide)⟩

/-- C4: the parse is fail-fast: if line `j` (0-based) is the first
malformed line, all of `Tokens.parse`, `Config.parse` and `Schema.parse`
abort with `InvalidLine`, reporting the 1-based position `j + 1` and the
original untrimmed line text; no partial result is returned. -/
theorem c4_fail_fast (content : Str) (j : Nat) (ln : Str)
    (hj : (linesOf content).get? j = some ln) (hbad : isBadLine ln = true)
    (hfirst : ∀ i' ln', i' < j → (linesOf content).get? i' = some ln' →
      isBadLine ln' = false) :
    Tokens.parse content = .error (.InvalidLine (j + 1) ln) ∧
    Config.parse content = .error (.InvalidLine (j + 1) ln) ∧
    Schema.parse content = .error (.InvalidLine (j + 1) ln) := by
  have h := parseFrom_first_bad (linesOf content) j ln hj hbad hfirst 0
  rw [Nat.zero_add] at h
  exact ⟨h, by simp [Config.parse, Tokens.parse, h], by simp [Schema.parse, Tokens.parse, h]⟩

/-- C4 witness: in "ok = 1\nbad" the second line is the first malformed
one, and every parse aborts with `InvalidLine` at line 2. -/
theorem c4_witness :
    Tokens.parse ("ok = 1\nbad").toList =
      .error (.InvalidLine 2 ("bad").toList) ∧
    Config.parse ("ok = 1\nbad").toList =
      .error (.InvalidLine 2 ("bad").toList) ∧
    Schema.parse ("ok = 1\nbad").toList =
      .error (.InvalidLine 2 ("bad").toList) :=
  c4_fail_fast _ 1 _ (by decide) (by decide) (by
    intro i' ln' hlt hget
    have hi : i' = 0 := by omega
    subst hi
    have heval : linesOf ("ok = 1\nbad").toList =
        [("ok = 1").toList, ("bad").toList] := by decide
    rw [heval] at hget
    simp only [List.get?] at hget
    injection hget with hget
    rw [← hget]
    decide)

/-- C3: when `Schema.parse` fails with `InvalidType`, the reported
`line_number` is the index of the offending `KeyValue` token in the
parsed token sequence plus one; in particular
`Schema.parse "retry = number"` reports line 1. -/
theorem c3_invalid_type_line_number (content : Str) (toks : List Token)
    (h : Tokens.parse content = .ok toks) (n : Nat) (tn : Str)
    (herr : Schema.parse content = .error (.InvalidType n tn)) :
    (∃ j k ig, toks.get? j = some (.KeyValue k tn ig) ∧
      typeOfName tn = none ∧ n = j + 1) ∧
    Schema.parse ("retry = number").toList =
      .error (.InvalidType 1 ("number").toList) := by
  constructor
  · rw [schemaParse_eq content toks h] at herr
    cases hf : schemaFold 0 [] toks with
    | ok e =>
      rw [hf] at herr
      exact absurd herr (by simp)
    | error e =>
      rw [hf] at herr
      injection herr with he
      obtain ⟨j, k, v, ig, h1, h2, h3⟩ := schemaFold_error toks 0 [] e hf
      rw [he] at h3
      injection h3 with hn htn
      refine ⟨j, k, ig, ?_, ?_, by omega⟩
      · rw [htn]
        exact h1
      · rw [htn]
        exact h2
  · decide

/-- C3 witness: "retry = number" puts the bad token at index 0 and the
error reports line 1. -/
theorem c3_witness :
    (∃ j k ig,
      [Token.KeyValue ("retry").toList ("number").toList false].get? j =
        some (.KeyValue k ("number").toList ig) ∧
      typeOfName ("number").toList = none ∧ 1 = j + 1) ∧
    Schema.parse ("retry = number").toList =
      .error (.InvalidType 1 ("number").toList) :=
  c3_invalid_type_line_number ("retry = number").toList
    [Token.KeyValue ("retry").toList ("number").toList false]
    (by decide) 1 ("number").toList (by decide)

/-- C5: given a successful tokenization, `Schema.parse` fails with
`InvalidType` exactly when some `KeyValue` token's value is none of
"string", "bool", "integer" — regardless of the token's `ignore_error`
flag, so the soft line "-retry = number" also aborts schema parsing. -/
theorem c5_schema_invalid_type_iff (content : Str) (toks : List Token)
    (h : Tokens.parse content = .ok toks) :
    ((∃ n tn, Schema.parse content = .error (.InvalidType n tn)) ↔
      ∃ k v ig, Token.KeyValue k v ig ∈ toks ∧ typeOfName v = none) ∧
    Schema.parse ("-retry = number").toList =
      .error (.InvalidType 1 ("number").toList) := by
  constructor
  · constructor
    · rintro ⟨n, tn, herr⟩
      rw [schemaParse_eq content toks h] at herr
      cases hf : schemaFold 0 [] toks with
      | ok e =>
        rw [hf] at herr
        exact absurd herr (by simp)
      | error e =>
        obtain ⟨j, k, v, ig, h1, h2, _⟩ := schemaFold_error toks 0 [] e hf
        exact ⟨k, v, ig, List.get?_mem h1, h2⟩
    · rintro ⟨k, v, ig, hm, hn⟩
      obtain ⟨e, he⟩ := schemaFold_error_of_bad toks 0 [] ⟨k, v, ig, hm, hn⟩
      obtain ⟨j, k', v', ig', h1, h2, h3⟩ := schemaFold_error toks 0 [] e he
      refine ⟨0 + j + 1, v', ?_⟩
      rw [schemaParse_eq content toks h, he, h3]
  · decide

/-- C5 witness: the soft line "-retry = number" tokenizes successfully
and schema parsing aborts with `InvalidType` at line 1. -/
theorem c5_witness :
    ((∃ n tn, Schema.parse ("-retry = number").toList =
        .error (.InvalidType n tn)) ↔
      ∃ k v ig, Token.KeyValue k v ig ∈
          [Token.KeyValue ("retry").toList ("number").toList true] ∧
        typeOfName v = none) ∧
    Schema.parse ("-retry = number").toList =
      .error (.InvalidType 1 ("number").toList) :=
  c5_schema_invalid_type_iff ("-retry = number").toList
    [Token.KeyValue ("retry").toList ("number").toList true] (by decide)

/-- C8: when the same key occurs on several key-value lines, the mapping
binds it to the last occurrence in file order — the value for `Config`,
the declared type for `Schema`. -/
theorem c8_duplicate_last_wins (content : Str) (toks t1 t2 : List Token)
    (k v : Str) (ig : Bool)
    (h : Tokens.parse content = .ok toks)
    (hsplit : toks = t1 ++ Token.KeyValue k v ig :: t2)
    (hlast : ∀ v' ig', Token.KeyValue k v' ig' ∉ t2) :
    (∀ cfg, Config.parse content = .ok cfg → cfg.get k = some v) ∧
    (∀ sch vt, typeOfName v = some vt → Schema.parse content = .ok sch →
      lookupA sch.entries k = some vt) := by
  constructor
  · intro cfg hcfg
    exact config_parse_lookup_last content toks t1 t2 k v ig cfg h hsplit hlast hcfg
  · intro sch vt htype hsch
    exact schema_parse_lookup_last content toks t1 t2 k v ig vt sch h hsplit hlast
      htype hsch

/-- C8 witness: in "t = bool\nt = integer" the key "t" ends bound to
value "integer" in the config and to `Integer` in the schema. -/
theorem c8_witness :
    (Config.mk [(("t").toList, ("integer").toList)]).get ("t").toList =
      some ("integer").toList ∧
    lookupA (Schema.mk [(("t").toList, ValueType.Integer)]).entries ("t").toList =
      some ValueType.Integer :=
  ⟨(c8_duplicate_last_wins ("t = bool\nt = integer").toList
      [Token.KeyValue ("t").toList ("bool").toList false,
        Token.KeyValue ("t").toList ("integer").toList false]
      [Token.KeyValue ("t").toList ("bool").toList false] [] ("t").toList
      ("integer").toList false (by decide) (by decide) (by simp)).1
    ⟨[(("t").toList, ("integer").toList)]⟩ (by decide),
   (c8_duplicate_last_wins ("t = bool\nt = integer").toList
      [Token.KeyValue ("t").toList ("bool").toList false,
        Token.KeyValue ("t").toList ("integer").toList false]
      [Token.KeyValue ("t").toList ("bool").toList false] [] ("t").toList
      ("integer").toList false (by decide) (by decide) (by simp)).2
    ⟨[(("t").toList, ValueType.Integer)]⟩ ValueType.Integer (by decide) (by decide)⟩

/-- C9: round-trip — for a key-value token with no later duplicate of its
key, `Config.get` returns exactly the tokenized (trimmed) value; and a
comment line "# debug = true" never populates the key "debug", so
validating against a schema requiring it yields exactly `MissingKey`. -/
theorem c9_round_trip (content : Str) (toks t1 t2 : List Token)
    (k v : Str) (ig : Bool) (cfg : Config)
    (h : Tokens.parse content = .ok toks)
    (hsplit : toks = t1 ++ Token.KeyValue k v ig :: t2)
    (hlast : ∀ v' ig', Token.KeyValue k v' ig' ∉ t2)
    (hcfg : Config.parse content = .ok cfg) :
    cfg.get k = some v ∧
    Except.bind (Config.parse ("endpoint = x\n# debug = true").toList)
      (fun c2 => Except.map (validate c2)
        (Schema.parse ("endpoint = string\ndebug = bool").toList)) =
      .ok (.error [.MissingKey ("debug").toList]) := by
  constructor
  · exact config_parse_lookup_last content toks t1 t2 k v ig cfg h hsplit hlast hcfg
  · decide

/-- C9 witness: in "other = 1\nk = val" the key "k" reads back its
trimmed value "val". -/
theorem c9_witness :
    (Config.mk [(("other").toList, ("1").toList),
        (("k").toList, ("val").toList)]).get ("k").toList =
      some ("val").toList ∧
    Except.bind (Config.parse ("endpoint = x\n# debug = true").toList)
      (fun c2 => Except.map (validate c2)
        (Schema.parse ("endpoint = string\ndebug = bool").toList)) =
      .ok (.error [.MissingKey ("debug").toList]) :=
  c9_round_trip ("other = 1\nk = val").toList
    [Token.KeyValue ("other").toList ("1").toList false,
      Token.KeyValue ("k").toList ("val").toList false]
    [Token.KeyValue ("other").toList ("1").toList false] []
    ("k").toList ("val").toList false
    ⟨[(("other").toList, ("1").toList), (("k").toList, ("val").toList)]⟩
    (by decide) (by decide) (by simp) (by decide)

/-- C2: `validate` succeeds exactly when the config's and schema's key
sets coincide and every value satisfies its declared type; otherwise the
error list contains exactly one `TypeMismatch` (with the type's display
name and the raw value) per ill-typed shared key, exactly one
`MissingKey` per key only in the schema, exactly one `UnknownKey` per key
only in the config, and nothing else. -/
theorem c2_validate_characterization (c : Config) (s : Schema)
    (hc : keysNodup c.entries) (hs : keysNodup s.entries) :
    (validate c s = .ok () ↔
      ((∀ k, (Config.get c k).isSome ↔ (lookupA s.entries k).isSome) ∧
        ∀ k vt v, lookupA s.entries k = some vt → Config.get c k = some v →
          vt.is_valid v = true)) ∧
    ∀ E, validate c s = .error E →
      E.Nodup ∧
      (∀ k exp got, ValidationError.TypeMismatch k exp got ∈ E ↔
        ∃ vt, lookupA s.entries k = some vt ∧ exp = vt.display ∧
          Config.get c k = some got ∧ vt.is_valid got = false) ∧
      (∀ k, ValidationError.MissingKey k ∈ E ↔
        (lookupA s.entries k).isSome ∧ Config.get c k = none) ∧
      (∀ k, ValidationError.UnknownKey k ∈ E ↔
        (Config.get c k).isSome ∧ lookupA s.entries k = none) := by
  constructor
  · rw [validate_ok_iff, schemaErrs_eq_nil, configErrs_eq_nil]
    constructor
    · rintro ⟨hA, hB⟩
      refine ⟨?_, ?_⟩
      · intro k
        constructor
        · intro hcs
          obtain ⟨v, hv⟩ := Option.isSome_iff_exists.mp hcs
          exact hB (k, v) (lookupA_mem _ _ _ hv)
        · intro hss
          obtain ⟨vt, hvt⟩ := Option.isSome_iff_exists.mp hss
          obtain ⟨v, hv, _⟩ := hA (k, vt) (lookupA_mem _ _ _ hvt)
          exact Option.isSome_iff_exists.mpr ⟨v, hv⟩
      · intro k vt v hvt hcv
        obtain ⟨v', hv', hvalid⟩ := hA (k, vt) (lookupA_mem _ _ _ hvt)
        have heq : v' = v := Option.some.inj (hv'.symm.trans hcv)
        rw [← heq]
        exact hvalid
    · rintro ⟨hkey, hval⟩
      constructor
      · intro p hp
        have hpair : (p.1, p.2) ∈ s.entries := by simpa using hp
        have hlk : lookupA s.entries p.1 = some p.2 := mem_lookupA _ _ _ hs hpair
        have hss : (lookupA s.entries p.1).isSome := by simp [hlk]
        have hcs : (Config.get c p.1).isSome := (hkey p.1).mpr hss
        obtain ⟨v, hv⟩ := Option.isSome_iff_exists.mp hcs
        exact ⟨v, hv, hval p.1 p.2 v hlk hv⟩
      · intro p hp
        have hcs : (Config.get c p.1).isSome :=
          (lookupA_isSome_iff c.entries p.1).mpr (List.mem_map.mpr ⟨p, hp, rfl⟩)
        exact (hkey p.1).mp hcs
  · intro E hE
    have hEeq := validate_error_eq c s E hE
    subst hEeq
    refine ⟨?_, ?_, ?_, ?_⟩
    · refine (schemaErrs_nodup c s hs).append (configErrs_nodup c s hc) ?_
      intro e he1 he2
      obtain ⟨k2, hk2⟩ := mem_configErrs_shape c s _ he2
      rcases mem_schemaErrs_shape c s e he1 with ⟨k1, x1, g1, hk1⟩ | ⟨k1, hk1⟩ <;>
        · rw [hk1] at hk2
          exact absurd hk2 (by simp)
    · intro k exp got
      rw [List.mem_append]
      constructor
      · rintro (h1 | h1)
        · exact (schemaErrs_mem_TM c s hs k exp got).mp h1
        · obtain ⟨k2, hk2⟩ := mem_configErrs_shape c s _ h1
          exact absurd hk2 (by simp)
      · intro hr
        exact Or.inl ((schemaErrs_mem_TM c s hs k exp got).mpr hr)
    · intro k
      rw [List.mem_append]
      constructor
      · rintro (h1 | h1)
        · exact (schemaErrs_mem_MK c s k).mp h1
        · obtain ⟨k2, hk2⟩ := mem_configErrs_shape c s _ h1
          exact absurd hk2 (by simp)
      · intro hr
        exact Or.inl ((schemaErrs_mem_MK c s k).mpr hr)
    · intro k
      rw [List.mem_append]
      constructor
      · rintro (h1 | h1)
        · rcases mem_schemaErrs_shape c s _ h1 with ⟨k1, x1, g1, hk⟩ | ⟨k1, hk⟩ <;>
            exact absurd hk (by simp)
        · exact (configErrs_mem_UK c s k).mp h1
      · intro hr
        exact Or.inr ((configErrs_mem_UK c s k).mpr hr)

/-- C2 witness: a well-typed config over the schema {"a": integer}
validates, and the value "1" indeed passes the integer check. -/
theorem c2_witness :
    ValueType.is_valid .Integer ("1").toList = true :=
  ((c2_validate_characterization ⟨[(("a").toList, ("1").toList)]⟩
      ⟨[(("a").toList, .Integer)]⟩ (by decide) (by decide)).1.mp
    (by decide)).2 ("a").toList .Integer ("1").toList (by decide) (by decide)

end SysctlConf
